import Mathlib

/-!
Shallow embedding of the senoval library (string.hpp, vector.hpp):
fixed-capacity string `SString N` (C++ `senoval::String<N>`), fixed-capacity
vector `SVector T N` (C++ `senoval::Vector<T, N>`), and the integral-to-text
converter `convertIntToString`.  Buffers are modelled as total functions
`Nat → α`; uninitialized storage is an arbitrary `junk` function that every
constructor takes as a parameter.  Operations that contain `assert(...)` in
the C++ source additionally have a `...Checked` variant returning `Option`,
where `none` models the abort of an assertion-enabled build.
-/

namespace Senoval

/-- The C string terminator `'\0'`. -/
def nullChar : Char := Char.ofNat 0

/-- Pointwise update of a buffer, modelling `buf[i] = a`. -/
def upd {α : Type} (f : Nat → α) (i : Nat) (a : α) : Nat → α :=
  fun j => if j = i then a else f j

/-- Model of `senoval::String<N>` (string.hpp:144): a running length `len_`
and a character store `buf_` of `N + 1` slots (we use a total function, the
slots above `N` being irrelevant). -/
structure SString (N : Nat) where
  len : Nat
  buf : Nat → Char

namespace SString

/-- The logical content: characters at indices `[0, len)`. -/
def content {N : Nat} (s : SString N) : List Char :=
  (List.range s.len).map s.buf

/-- The class invariant of `senoval::String<N>`: `len_ ≤ Capacity` and the
slot at index `len_` holds the terminator. -/
def WF {N : Nat} (s : SString N) : Prop :=
  s.len ≤ N ∧ s.buf s.len = nullChar

instance {N : Nat} (s : SString N) : Decidable s.WF :=
  inferInstanceAs (Decidable (_ ∧ _))

/-- `buf_[len_] = '\0';` — performed at the end of every mutator. -/
def setTerm {N : Nat} (s : SString N) : SString N :=
  { len := s.len, buf := upd s.buf s.len nullChar }

/-- `buf_[len_] = c; ++len_;` — the write step inside the copy loops. -/
def writeChar {N : Nat} (s : SString N) (c : Char) : SString N :=
  { len := s.len + 1, buf := upd s.buf s.len c }

/-- `String::push_back` (string.hpp:227-235). -/
def push_back {N : Nat} (s : SString N) (c : Char) : SString N :=
  if s.len < N then setTerm (writeChar s c) else setTerm s

/-- `String::pop_back` (string.hpp:237-244). Note: no assertion in the
source; popping an empty string only rewrites the terminator. -/
def pop_back {N : Nat} (s : SString N) : SString N :=
  if 0 < s.len then setTerm { len := s.len - 1, buf := s.buf } else setTerm s

/-- `String::clear` (string.hpp:208-212). -/
def clear {N : Nat} (s : SString N) : SString N :=
  setTerm { len := 0, buf := s.buf }

/-- The loop of `String::operator+=(const char*)` (string.hpp:289-298):
`while ((*p != '\0') && (len_ < Capacity)) { buf_[len_] = *p++; ++len_; }`.
The input list holds the pointed-to characters; reaching the end of the
list corresponds to reaching the C string's own terminator. -/
def appendLoop {N : Nat} : SString N → List Char → SString N
  | s, [] => s
  | s, c :: rest =>
    if c = nullChar then s
    else if s.len < N then appendLoop (writeChar s c) rest
    else s

/-- `String::operator+=(const char*)` (string.hpp:289-298): the copy loop
followed by `buf_[len_] = '\0'`. -/
def appendCStr {N : Nat} (s : SString N) (p : List Char) : SString N :=
  setTerm (appendLoop s p)

/-- A freshly constructed string before its constructor body runs: `len_ = 0`
and `buf_` holds indeterminate (junk) values. -/
def initJunk (N : Nat) (junk : Nat → Char) : SString N :=
  { len := 0, buf := junk }

/-- The loop of `String::String(InputIterator, InputIterator)`
(string.hpp:171-181): `while ((begin != end) && (len_ < Capacity))`. -/
def rangeLoop {N : Nat} : SString N → List Char → SString N
  | s, [] => s
  | s, c :: rest => if s.len < N then rangeLoop (writeChar s c) rest else s

/-- `String::String(InputIterator, InputIterator)` (string.hpp:171-181). -/
def fromRange (N : Nat) (junk : Nat → Char) (xs : List Char) : SString N :=
  setTerm (rangeLoop (initJunk N junk) xs)

/-- `String::String()` (string.hpp:160-163): `buf_[len_] = '\0';`. -/
def emptyWith (N : Nat) (junk : Nat → Char) : SString N :=
  setTerm (initJunk N junk)

/-- `String::String(const char*)` (string.hpp:166-169): `(*this) += initializer;`. -/
def fromCStr (N : Nat) (junk : Nat → Char) (p : List Char) : SString N :=
  appendCStr (initJunk N junk) p

/-- `String::String(const String<C>&)` (string.hpp:183-187): delegates to
`operator+=` on `initializer.c_str()`.  For a well-formed source the
characters read through `c_str()` up to the first `'\0'` are exactly the
prefix of `content` up to the first `nullChar` (the terminator at index
`len` ends the scan), which is what `appendLoop` consumes. -/
def fromOther {M : Nat} (N : Nat) (junk : Nat → Char) (o : SString M) : SString N :=
  appendCStr (initJunk N junk) o.content

/-- `String::operator=(const T&)` (string.hpp:274-280): `clear(); (*this) += s;`. -/
def assignCStr {N : Nat} (s : SString N) (p : List Char) : SString N :=
  appendCStr (clear s) p

/-- `operator+(const String<L>&, const String<R>&)` (string.hpp:365-372):
`String<L+R> out(left); out += right; return out;`. -/
def concat {L R : Nat} (junk : Nat → Char) (l : SString L) (r : SString R) :
    SString (L + R) :=
  appendCStr (appendCStr (initJunk (L + R) junk) l.content) r.content

/-- Checked-build `String::back` (string.hpp:249-261): `assert(false)` on an
empty string is modelled as `none`. -/
def backChecked {N : Nat} (s : SString N) : Option Char :=
  if 0 < s.len then some (s.buf (s.len - 1)) else none

/-- Checked-build `String::front` = `operator[](0)` (string.hpp:246-247,
306-318): asserts unless `0 < len_`. -/
def frontChecked {N : Nat} (s : SString N) : Option Char :=
  if 0 < s.len then some (s.buf 0) else none

/-- Checked-build `String::pop_back`: the source (string.hpp:237-244)
contains no assertion at all, so the checked build never aborts. -/
def popBackChecked {N : Nat} (s : SString N) : Option (SString N) :=
  some (pop_back s)

/-- The grow loop of `String::resize` (string.hpp:216-219):
`while (len_ < sz) { push_back(c); }`, with explicit fuel; `none` means the
loop has not finished within `fuel` iterations. -/
def growLoop {N : Nat} (c : Char) (sz : Nat) : Nat → SString N → Option (SString N)
  | 0, s => if s.len < sz then none else some s
  | fuel + 1, s => if s.len < sz then growLoop c sz fuel (push_back s c) else some s

/-- The shrink loop of `String::resize` (string.hpp:221-224):
`while (len_ > sz) { pop_back(); }`. -/
def shrinkLoop {N : Nat} (sz : Nat) : Nat → SString N → SString N
  | 0, s => s
  | fuel + 1, s => if sz < s.len then shrinkLoop sz fuel (pop_back s) else s

/-- `String::resize(sz, c)` (string.hpp:214-225).  The grow loop is given
`sz + 1` fuel, which is enough whenever it terminates at all; `none` means
the grow loop runs forever. -/
def resize {N : Nat} (s : SString N) (sz : Nat) (c : Char) : Option (SString N) :=
  match growLoop c sz (sz + 1) s with
  | none => none
  | some t => some (shrinkLoop sz t.len t)

/-- The grow loop of `String::resize` terminates on the given state. -/
def ResizeGrowTerminates {N : Nat} (s : SString N) (sz : Nat) (c : Char) : Prop :=
  ∃ fuel t, growLoop c sz fuel s = some t

end SString

/-- Model of `senoval::Vector<T, N>` (vector.hpp:46): a running length and a
raw store of `N` elements (total function; slots at and above `len` are
unspecified, matching the non-zero-initializing source). -/
structure SVector (T : Type) (N : Nat) where
  len : Nat
  buf : Nat → T

namespace SVector

/-- The logical content: elements at indices `[0, len)`. -/
def content {T : Type} {N : Nat} (v : SVector T N) : List T :=
  (List.range v.len).map v.buf

/-- A freshly constructed vector: `len_ = 0`, indeterminate store. -/
def initJunk (T : Type) (N : Nat) (junk : Nat → T) : SVector T N :=
  { len := 0, buf := junk }

/-- `Vector::push_back` (vector.hpp:134-145) in a build without assertion
checks: when full, the `assert(false)` branch does nothing, so the append
is a silent no-op. -/
def push_back {T : Type} {N : Nat} (v : SVector T N) (x : T) : SVector T N :=
  if v.len < N then { len := v.len + 1, buf := upd v.buf v.len x } else v

/-- Checked-build `Vector::push_back` (vector.hpp:134-145): `assert(false)`
when full is modelled as `none`. -/
def pushBackChecked {T : Type} {N : Nat} (v : SVector T N) (x : T) :
    Option (SVector T N) :=
  if v.len < N then some { len := v.len + 1, buf := upd v.buf v.len x } else none

/-- Checked-build `Vector::pop_back` (vector.hpp:147-157): asserts on empty. -/
def popBackChecked {T : Type} {N : Nat} (v : SVector T N) : Option (SVector T N) :=
  if 0 < v.len then some { len := v.len - 1, buf := v.buf } else none

/-- Checked-build `Vector::back` (vector.hpp:162-174): asserts on empty. -/
def backChecked {T : Type} {N : Nat} (v : SVector T N) : Option T :=
  if 0 < v.len then some (v.buf (v.len - 1)) else none

/-- Checked-build `Vector::front` = `operator[](0)` (vector.hpp:159-160,
189-201): asserts unless `0 < len_`. -/
def frontChecked {T : Type} {N : Nat} (v : SVector T N) : Option T :=
  if 0 < v.len then some (v.buf 0) else none

/-- The loop of `Vector::Vector(InputIterator, InputIterator)`
(vector.hpp:71-80): `while ((begin != end) && (len_ < Capacity))`. -/
def rangeLoop {T : Type} {N : Nat} : SVector T N → List T → SVector T N
  | v, [] => v
  | v, x :: rest =>
    if v.len < N then rangeLoop { len := v.len + 1, buf := upd v.buf v.len x } rest
    else v

/-- `Vector::Vector(InputIterator, InputIterator)` (vector.hpp:71-80). -/
def fromRange (T : Type) (N : Nat) (junk : Nat → T) (xs : List T) : SVector T N :=
  rangeLoop (initJunk T N junk) xs

/-- `Vector::Vector(std::initializer_list<T>)` (vector.hpp:63-69) in a build
without assertion checks: `for (v : values) push_back(v);`. -/
def fromList (T : Type) (N : Nat) (junk : Nat → T) (xs : List T) : SVector T N :=
  xs.foldl push_back (initJunk T N junk)

/-- The loop of `Vector::Vector(std::initializer_list<T>)` in a checked
build: the first `push_back` on a full vector aborts (`none`). -/
def fromListCheckedLoop {T : Type} {N : Nat} :
    SVector T N → List T → Option (SVector T N)
  | v, [] => some v
  | v, x :: rest =>
    match pushBackChecked v x with
    | none => none
    | some v' => fromListCheckedLoop v' rest

/-- Checked-build `Vector::Vector(std::initializer_list<T>)` (vector.hpp:63-69). -/
def fromListChecked (T : Type) (N : Nat) (junk : Nat → T) (xs : List T) :
    Option (SVector T N) :=
  fromListCheckedLoop (initJunk T N junk) xs

end SVector

/-! ### The integral-to-text converter (string.hpp:57-139) -/

/-- `constexpr char Alphabet[] = "0123456789abcdefghijklmnopqrstuvwxyz";`
(string.hpp:79). -/
def alphabet : List Char := "0123456789abcdefghijklmnopqrstuvwxyz".toList

/-- `Alphabet[i]`. -/
def alphaChar (i : Nat) : Char := alphabet.getD i '?'

/-- One update of `x` in the signed branch of the conversion loop
(string.hpp:107): `x = T((x < 0) ? -(x / -Radix) : (x / Radix));`
(C++ `/` on integers truncates toward zero, i.e. `Int.tdiv`). -/
def signedStep (radix : Int) (x : Int) : Int :=
  if x < 0 then -(x.tdiv (-radix)) else x.tdiv radix

/-- The do-while loop of `Container::Container` (string.hpp:89-116) for a
signed argument, building the digit string back to front (the source writes
`storage_[--offset_]`, we prepend to an accumulator).  The residual is
`x % Radix` (truncating `%`, i.e. `Int.tmod`) negated if negative
(string.hpp:96-101), so its digit index is `(x.tmod radix).natAbs`.
The fuel only bounds the iteration count; callers pass enough of it. -/
def signedLoop (radix : Int) : Nat → Int → List Char → List Char
  | 0, _, acc => acc
  | fuel + 1, x, acc =>
    if signedStep radix x = 0 then alphaChar (x.tmod radix).natAbs :: acc
    else signedLoop radix fuel (signedStep radix x)
      (alphaChar (x.tmod radix).natAbs :: acc)

/-- `convertIntToString` (string.hpp:57-139) for a signed integral argument:
run the digit loop, then prepend `'-'` if the argument was negative
(string.hpp:118-122).  `x.natAbs + 1` iterations always suffice for a
radix ≥ 2. -/
def convertSigned (radix : Int) (x : Int) : List Char :=
  let ds := signedLoop radix (x.natAbs + 1) x []
  if x < 0 then '-' :: ds else ds

/-- The do-while loop of `Container::Container` (string.hpp:89-116) for an
unsigned argument (the `else` branch at string.hpp:109-114). -/
def unsignedLoop (radix : Nat) : Nat → Nat → List Char → List Char
  | 0, _, acc => acc
  | fuel + 1, x, acc =>
    if x / radix = 0 then alphaChar (x % radix) :: acc
    else unsignedLoop radix fuel (x / radix) (alphaChar (x % radix) :: acc)

/-- `convertIntToString` (string.hpp:57-139) for an unsigned argument. -/
def convertUnsigned (radix : Nat) (x : Nat) : List Char :=
  unsignedLoop radix (x + 1) x []

/-- Reference decimal spelling of a natural number, written from the spec's
words ("shortest correct decimal digit sequence with most-significant digit
first"): the base-10 digits of `n`, most significant first, `"0"` for zero. -/
def canonicalDecimal (n : Nat) : List Char :=
  if n = 0 then ['0'] else ((Nat.digits 10 n).reverse.map alphaChar)

/-- Reference decoder for a most-significant-first decimal digit string. -/
def decodeDecimal (ds : List Char) : Nat :=
  ds.foldl (fun a c => 10 * a + (c.toNat - 48)) 0

/-! ### Concrete inputs used by witnesses and counterexamples -/

/-- A concrete junk (uninitialized-memory) pattern for character buffers. -/
def exJunkC : Nat → Char := fun _ => 'J'

/-- A concrete junk pattern for `Nat` element buffers. -/
def exJunkN : Nat → Nat := fun _ => 0

/-- A capacity-2 string holding `'\0'` then `'a'`: the `'\0'` is genuine
logical content, placed by `push_back` (string.hpp:227-235). -/
def sNulA : SString 2 :=
  SString.push_back (SString.push_back (SString.emptyWith 2 exJunkC) nullChar) 'a'

/-- A capacity-1 string whose single content character is `'\0'`. -/
def sNul1 : SString 1 :=
  SString.push_back (SString.emptyWith 1 exJunkC) nullChar

/-- A capacity-1 string holding `'a'`. -/
def sA1 : SString 1 :=
  SString.push_back (SString.emptyWith 1 exJunkC) 'a'

/-- An empty capacity-2 string. -/
def sEmpty2 : SString 2 := SString.emptyWith 2 exJunkC

/-- An empty capacity-2 `Nat` vector. -/
def vEmpty2 : SVector Nat 2 := SVector.initJunk Nat 2 exJunkN

end Senoval

/-! ## Supporting lemmas and the claim theorems -/

namespace Senoval

theorem upd_same {α : Type} (f : Nat → α) (i : Nat) (a : α) : upd f i a i = a := by
  simp [upd]

theorem upd_other {α : Type} (f : Nat → α) {i j : Nat} (a : α) (h : j ≠ i) :
    upd f i a j = f j := by
  simp [upd, h]

theorem SString.len_setTerm {N : Nat} (s : SString N) : (s.setTerm).len = s.len := rfl

theorem SString.content_setTerm {N : Nat} (s : SString N) :
    (s.setTerm).content = s.content := by
  unfold SString.content SString.setTerm
  apply List.map_congr_left
  intro j hj
  exact upd_other _ _ (Nat.ne_of_lt (List.mem_range.mp hj))

theorem SString.content_writeChar {N : Nat} (s : SString N) (c : Char) :
    (s.writeChar c).content = s.content ++ [c] := by
  have h1 : (List.range s.len).map (upd s.buf s.len c) = (List.range s.len).map s.buf :=
    List.map_congr_left fun j hj => upd_other _ _ (Nat.ne_of_lt (List.mem_range.mp hj))
  simp [SString.content, SString.writeChar, List.range_succ, h1, upd_same]

theorem SString.rangeLoop_len {N : Nat} :
    ∀ (xs : List Char) (s : SString N), s.len ≤ N →
      (SString.rangeLoop s xs).len = min (s.len + xs.length) N
  | [], s, h => by
    simp [SString.rangeLoop]
    omega
  | c :: rest, s, h => by
    unfold SString.rangeLoop
    by_cases hlt : s.len < N
    · rw [if_pos hlt, SString.rangeLoop_len rest _ (by simp [SString.writeChar]; omega)]
      simp [SString.writeChar]
      omega
    · rw [if_neg hlt]
      simp
      omega

theorem SString.rangeLoop_content {N : Nat} :
    ∀ (xs : List Char) (s : SString N), s.len ≤ N →
      (SString.rangeLoop s xs).content = s.content ++ xs.take (N - s.len)
  | [], s, h => by simp [SString.rangeLoop]
  | c :: rest, s, h => by
    unfold SString.rangeLoop
    by_cases hlt : s.len < N
    · rw [if_pos hlt,
        SString.rangeLoop_content rest _ (by simp [SString.writeChar]; omega)]
      rw [SString.content_writeChar]
      have hn : N - s.len = (N - (s.len + 1)) + 1 := by omega
      simp [SString.writeChar, hn, List.append_assoc]
    · rw [if_neg hlt]
      have hn : N - s.len = 0 := by omega
      simp [hn]

theorem SString.fromRange_len {N : Nat} (junk : Nat → Char) (xs : List Char) :
    (SString.fromRange N junk xs).len = min xs.length N := by
  unfold SString.fromRange
  rw [SString.len_setTerm, SString.rangeLoop_len xs _ (Nat.zero_le N)]
  simp [SString.initJunk]

theorem SString.fromRange_content {N : Nat} (junk : Nat → Char) (xs : List Char) :
    (SString.fromRange N junk xs).content = xs.take N := by
  unfold SString.fromRange
  rw [SString.content_setTerm, SString.rangeLoop_content xs _ (Nat.zero_le N)]
  simp [SString.initJunk, SString.content]

theorem SVector.content_write {T : Type} {N : Nat} (v : SVector T N) (x : T) :
    ({ len := v.len + 1, buf := upd v.buf v.len x } : SVector T N).content
      = v.content ++ [x] := by
  have h1 : (List.range v.len).map (upd v.buf v.len x) = (List.range v.len).map v.buf :=
    List.map_congr_left fun j hj => upd_other _ _ (Nat.ne_of_lt (List.mem_range.mp hj))
  simp [SVector.content, List.range_succ, h1, upd_same]

theorem SVector.rangeLoop_len_eq {T : Type} {N : Nat} :
    ∀ (xs : List T) (v : SVector T N), v.len ≤ N →
      (SVector.rangeLoop v xs).len = min (v.len + xs.length) N
  | [], v, h => by
    simp [SVector.rangeLoop]
    omega
  | x :: rest, v, h => by
    unfold SVector.rangeLoop
    by_cases hlt : v.len < N
    · rw [if_pos hlt, SVector.rangeLoop_len_eq rest _ (by simp; omega)]
      simp
      omega
    · rw [if_neg hlt]
      simp
      omega

theorem SVector.rangeLoop_content_eq {T : Type} {N : Nat} :
    ∀ (xs : List T) (v : SVector T N), v.len ≤ N →
      (SVector.rangeLoop v xs).content = v.content ++ xs.take (N - v.len)
  | [], v, h => by simp [SVector.rangeLoop]
  | x :: rest, v, h => by
    unfold SVector.rangeLoop
    by_cases hlt : v.len < N
    · rw [if_pos hlt, SVector.rangeLoop_content_eq rest _ (by simp; omega)]
      rw [SVector.content_write]
      have hn : N - v.len = (N - (v.len + 1)) + 1 := by omega
      simp [hn, List.append_assoc]
    · rw [if_neg hlt]
      have hn : N - v.len = 0 := by omega
      simp [hn]

theorem SVector.fromRange_len_eq {T : Type} {N : Nat} (junk : Nat → T) (xs : List T) :
    (SVector.fromRange T N junk xs).len = min xs.length N := by
  unfold SVector.fromRange
  rw [SVector.rangeLoop_len_eq xs _ (Nat.zero_le N)]
  simp [SVector.initJunk]

theorem SVector.fromRange_content_eq {T : Type} {N : Nat} (junk : Nat → T) (xs : List T) :
    (SVector.fromRange T N junk xs).content = xs.take N := by
  unfold SVector.fromRange
  rw [SVector.rangeLoop_content_eq xs _ (Nat.zero_le N)]
  simp [SVector.initJunk, SVector.content]

/-- C1: for every capacity `N` and input range, constructing a `String<N>`
or a `Vector<T, N>` from an iterator range yields length `min(|xs|, N)`;
inputs longer than `N` are truncated to their first `N` elements and inputs
of length at most `N` are copied in full. -/
theorem C1_range_truncation_law :
    (∀ (N : Nat) (junk : Nat → Char) (xs : List Char), 0 < N →
      (SString.fromRange N junk xs).len = min xs.length N ∧
      (SString.fromRange N junk xs).content = xs.take N ∧
      (N < xs.length → (SString.fromRange N junk xs).len = N) ∧
      (xs.length ≤ N → (SString.fromRange N junk xs).content = xs)) ∧
    (∀ (T : Type) (N : Nat) (junk : Nat → T) (xs : List T), 0 < N →
      (SVector.fromRange T N junk xs).len = min xs.length N ∧
      (SVector.fromRange T N junk xs).content = xs.take N ∧
      (N < xs.length → (SVector.fromRange T N junk xs).len = N) ∧
      (xs.length ≤ N → (SVector.fromRange T N junk xs).content = xs)) := by
  constructor
  · intro N junk xs _
    refine ⟨SString.fromRange_len junk xs, SString.fromRange_content junk xs, ?_, ?_⟩
    · intro hlong
      rw [SString.fromRange_len junk xs]
      omega
    · intro hshort
      rw [SString.fromRange_content junk xs, List.take_of_length_le hshort]
  · intro T N junk xs _
    refine ⟨SVector.fromRange_len_eq junk xs, SVector.fromRange_content_eq junk xs, ?_, ?_⟩
    · intro hlong
      rw [SVector.fromRange_len_eq junk xs]
      omega
    · intro hshort
      rw [SVector.fromRange_content_eq junk xs, List.take_of_length_le hshort]

theorem SString.appendLoop_eq_rangeLoop {N : Nat} :
    ∀ (p : List Char) (s : SString N), nullChar ∉ p →
      SString.appendLoop s p = SString.rangeLoop s p
  | [], s, _ => rfl
  | c :: rest, s, h => by
    have hc : c ≠ nullChar := fun hc => h (hc ▸ List.mem_cons_self c rest)
    have hr : nullChar ∉ rest := fun hr => h (List.mem_cons_of_mem c hr)
    unfold SString.appendLoop SString.rangeLoop
    rw [if_neg hc]
    by_cases hlt : s.len < N
    · rw [if_pos hlt, if_pos hlt, SString.appendLoop_eq_rangeLoop rest _ hr]
    · rw [if_neg hlt, if_neg hlt]

theorem SString.content_length {N : Nat} (s : SString N) : s.content.length = s.len := by
  simp [SString.content]

theorem SString.appendCStr_len {N : Nat} (s : SString N) (p : List Char)
    (hs : s.len ≤ N) (hp : nullChar ∉ p) :
    (s.appendCStr p).len = min (s.len + p.length) N := by
  unfold SString.appendCStr
  rw [SString.len_setTerm, SString.appendLoop_eq_rangeLoop p s hp,
    SString.rangeLoop_len p s hs]

theorem SString.appendCStr_content {N : Nat} (s : SString N) (p : List Char)
    (hs : s.len ≤ N) (hp : nullChar ∉ p) :
    (s.appendCStr p).content = s.content ++ p.take (N - s.len) := by
  unfold SString.appendCStr
  rw [SString.content_setTerm, SString.appendLoop_eq_rangeLoop p s hp,
    SString.rangeLoop_content p s hs]

theorem SString.WF_setTerm {N : Nat} (s : SString N) (h : s.len ≤ N) :
    (s.setTerm).WF :=
  ⟨h, upd_same _ _ _⟩

theorem SString.appendLoop_len_le {N : Nat} :
    ∀ (p : List Char) (s : SString N), s.len ≤ N → (SString.appendLoop s p).len ≤ N
  | [], _, h => h
  | c :: rest, s, h => by
    unfold SString.appendLoop
    by_cases hc : c = nullChar
    · rw [if_pos hc]; exact h
    · rw [if_neg hc]
      by_cases hlt : s.len < N
      · rw [if_pos hlt]
        exact SString.appendLoop_len_le rest _ (by simp [SString.writeChar]; omega)
      · rw [if_neg hlt]; exact h

theorem SString.WF_appendCStr {N : Nat} (s : SString N) (p : List Char)
    (h : s.len ≤ N) : (s.appendCStr p).WF :=
  SString.WF_setTerm _ (SString.appendLoop_len_le p s h)

theorem SString.WF_push_back {N : Nat} (s : SString N) (c : Char) (h : s.len ≤ N) :
    (s.push_back c).WF := by
  unfold SString.push_back
  by_cases hlt : s.len < N
  · rw [if_pos hlt]
    exact SString.WF_setTerm _ (by simp [SString.writeChar]; omega)
  · rw [if_neg hlt]
    exact SString.WF_setTerm _ h

theorem SString.WF_pop_back {N : Nat} (s : SString N) (h : s.len ≤ N) :
    (s.pop_back).WF := by
  unfold SString.pop_back
  by_cases hpos : 0 < s.len
  · rw [if_pos hpos]
    exact SString.WF_setTerm _ (by simp; omega)
  · rw [if_neg hpos]
    exact SString.WF_setTerm _ h

theorem SString.WF_clear {N : Nat} (s : SString N) : (s.clear).WF :=
  SString.WF_setTerm _ (Nat.zero_le N)

theorem SString.WF_emptyWith (N : Nat) (junk : Nat → Char) :
    (SString.emptyWith N junk).WF :=
  SString.WF_setTerm _ (Nat.zero_le N)

theorem SString.rangeLoop_len_le {N : Nat} (xs : List Char) (s : SString N)
    (h : s.len ≤ N) : (SString.rangeLoop s xs).len ≤ N := by
  rw [SString.rangeLoop_len xs s h]
  omega

theorem SString.WF_fromRange (N : Nat) (junk : Nat → Char) (xs : List Char) :
    (SString.fromRange N junk xs).WF :=
  SString.WF_setTerm _ (SString.rangeLoop_len_le xs _ (Nat.zero_le N))

theorem SString.WF_fromCStr (N : Nat) (junk : Nat → Char) (p : List Char) :
    (SString.fromCStr N junk p).WF :=
  SString.WF_appendCStr _ p (Nat.zero_le N)

theorem SString.WF_fromOther {M : Nat} (N : Nat) (junk : Nat → Char)
    (o : SString M) : (SString.fromOther N junk o).WF :=
  SString.WF_appendCStr _ _ (Nat.zero_le N)

theorem SString.WF_assignCStr {N : Nat} (s : SString N) (p : List Char) :
    (s.assignCStr p).WF :=
  SString.WF_appendCStr _ p (Nat.zero_le N)

/-- C5: constructing `String<N>` from `String<M>` goes through `c_str()`
(string.hpp:183-187, 282-287), which stops at the first `'\0'`; the claim
"copies exactly `min(len(other), N)` characters for every possible content"
fails as soon as the source's logical content contains an embedded `'\0'`.
Here a well-formed capacity-2 source with content `['\0', 'a']` is copied
as zero characters. -/
theorem C5_cross_capacity_copy_counterexample :
    sNulA.WF ∧ sNulA.len = 2 ∧
    (SString.fromOther 2 exJunkC sNulA).len ≠ min sNulA.len 2 := by
  refine ⟨by decide, by decide, by decide⟩

/-- C5 (amended): when the source's logical content contains no `'\0'`
character, constructing a `String<N>` from a well-formed `String<M>` yields
length `min(len(other), N)` and content equal to the first
`min(len(other), N)` characters of the source's content. -/
theorem C5_cross_capacity_copy_amended {M : Nat} (N : Nat) (junk : Nat → Char)
    (o : SString M) (_ho : o.WF) (hnul : nullChar ∉ o.content) :
    (SString.fromOther N junk o).len = min o.len N ∧
    (SString.fromOther N junk o).content = o.content.take N := by
  unfold SString.fromOther
  constructor
  · rw [SString.appendCStr_len _ _ (Nat.zero_le N) hnul]
    show min (0 + o.content.length) N = min o.len N
    rw [Nat.zero_add, SString.content_length]
  · rw [SString.appendCStr_content _ _ (Nat.zero_le N) hnul]
    show [] ++ o.content.take (N - 0) = o.content.take N
    rw [List.nil_append, Nat.sub_zero]

/-- C5 witness: a NUL-free cross-capacity copy behaves as claimed. -/
theorem C5_cross_capacity_copy_witness :
    sA1.WF ∧ nullChar ∉ sA1.content ∧
    (SString.fromOther 3 exJunkC sA1).len = min sA1.len 3 :=
  ⟨by decide, by decide,
   (C5_cross_capacity_copy_amended 3 exJunkC sA1 (by decide) (by decide)).1⟩

/-- C7: `operator+` (string.hpp:365-372) also copies through `c_str()`, so
with an embedded `'\0'` in the left operand the result is not the logical
concatenation even though `lenA + lenB ≤ A + B`. -/
theorem C7_concat_counterexample :
    sNul1.WF ∧ sA1.WF ∧
    (SString.concat exJunkC sNul1 sA1).content ≠ sNul1.content ++ sA1.content := by
  refine ⟨by decide, by decide, by decide⟩

/-- C7 (amended): for well-formed operands whose logical contents contain no
`'\0'`, `operator+` yields a buffer of capacity `A + B` (the result type)
whose content is the logical concatenation of the operands' contents, with
no truncation, since `lenA + lenB ≤ A + B`. -/
theorem C7_concat_amended {L R : Nat} (junk : Nat → Char)
    (l : SString L) (r : SString R) (hl : l.WF) (hr : r.WF)
    (hln : nullChar ∉ l.content) (hrn : nullChar ∉ r.content) :
    (SString.concat junk l r).len = l.len + r.len ∧
    (SString.concat junk l r).content = l.content ++ r.content ∧
    (SString.concat junk l r).len ≤ L + R := by
  have hlL : l.len ≤ L := hl.1
  have hrR : r.len ≤ R := hr.1
  unfold SString.concat
  have h1len : (SString.appendCStr (SString.initJunk (L + R) junk) l.content).len
      = l.len := by
    rw [SString.appendCStr_len _ _ (Nat.zero_le _) hln]
    show min (0 + l.content.length) (L + R) = l.len
    rw [Nat.zero_add, SString.content_length]
    omega
  have h1con : (SString.appendCStr (SString.initJunk (L + R) junk) l.content).content
      = l.content := by
    rw [SString.appendCStr_content _ _ (Nat.zero_le _) hln]
    show [] ++ l.content.take (L + R - 0) = l.content
    rw [List.nil_append, Nat.sub_zero]
    exact List.take_of_length_le (by rw [SString.content_length]; omega)
  have hs1 : (SString.appendCStr (SString.initJunk (L + R) junk) l.content).len
      ≤ L + R := by rw [h1len]; omega
  have h2 : (SString.appendCStr (SString.appendCStr (SString.initJunk (L + R) junk)
      l.content) r.content).len = l.len + r.len := by
    rw [SString.appendCStr_len _ _ hs1 hrn, h1len, SString.content_length]
    omega
  refine ⟨h2, ?_, by rw [h2]; omega⟩
  rw [SString.appendCStr_content _ _ hs1 hrn, h1len, h1con]
  congr 1
  exact List.take_of_length_le (by rw [SString.content_length]; omega)

theorem SString.push_back_len_lt {N : Nat} (s : SString N) (c : Char)
    (h : s.len < N) : (s.push_back c).len = s.len + 1 := by
  unfold SString.push_back
  rw [if_pos h]
  rfl

theorem SString.push_back_len_le {N : Nat} (s : SString N) (c : Char)
    (h : s.len ≤ N) : (s.push_back c).len ≤ N := by
  unfold SString.push_back
  by_cases hlt : s.len < N
  · rw [if_pos hlt]; exact hlt
  · rw [if_neg hlt]; exact h

theorem SString.growLoop_some {N : Nat} (c : Char) (sz : Nat) :
    ∀ (fuel : Nat) (s : SString N), s.len ≤ N → sz ≤ N → sz ≤ s.len + fuel →
      ∃ t, SString.growLoop c sz fuel s = some t ∧ t.len = max s.len sz ∧
        t.len ≤ N ∧ (s.WF → t.WF)
  | 0, s, hsN, _, hfuel => by
    have hge : ¬ s.len < sz := by omega
    exact ⟨s, by unfold SString.growLoop; rw [if_neg hge], by omega, hsN, fun h => h⟩
  | fuel + 1, s, hsN, hszN, hfuel => by
    by_cases hlt : s.len < sz
    · have hsN' : (s.push_back c).len = s.len + 1 :=
        SString.push_back_len_lt s c (by omega)
      obtain ⟨t, heq, hlen, hle, hwf⟩ :=
        SString.growLoop_some c sz fuel (s.push_back c) (by omega) hszN (by omega)
      refine ⟨t, ?_, by omega, hle, ?_⟩
      · unfold SString.growLoop
        rw [if_pos hlt]
        exact heq
      · intro hs
        exact hwf (SString.WF_push_back s c hs.1)
    · refine ⟨s, ?_, by omega, hsN, fun h => h⟩
      unfold SString.growLoop
      rw [if_neg hlt]

theorem SString.growLoop_none {N : Nat} (c : Char) (sz : Nat) (hsz : N < sz) :
    ∀ (fuel : Nat) (s : SString N), s.len ≤ N →
      SString.growLoop c sz fuel s = none
  | 0, s, hsN => by
    unfold SString.growLoop
    rw [if_pos (by omega)]
  | fuel + 1, s, hsN => by
    unfold SString.growLoop
    rw [if_pos (by omega)]
    exact SString.growLoop_none c sz hsz fuel _ (SString.push_back_len_le s c hsN)

theorem SString.pop_back_len {N : Nat} (s : SString N) (h : 0 < s.len) :
    (s.pop_back).len = s.len - 1 := by
  unfold SString.pop_back
  rw [if_pos h]
  rfl

theorem SString.shrinkLoop_spec {N : Nat} (sz : Nat) :
    ∀ (fuel : Nat) (s : SString N), s.len ≤ sz + fuel →
      (SString.shrinkLoop sz fuel s).len = min s.len sz ∧
      (s.WF → (SString.shrinkLoop sz fuel s).WF)
  | 0, s, hfuel => by
    have hge : ¬ sz < s.len := by omega
    unfold SString.shrinkLoop
    exact ⟨by omega, fun h => h⟩
  | fuel + 1, s, hfuel => by
    by_cases hlt : sz < s.len
    · have hp : (s.pop_back).len = s.len - 1 := SString.pop_back_len s (by omega)
      obtain ⟨hlen, hwf⟩ := SString.shrinkLoop_spec sz fuel (s.pop_back) (by omega)
      unfold SString.shrinkLoop
      rw [if_pos hlt]
      exact ⟨by omega, fun hs => hwf (SString.WF_pop_back s hs.1)⟩
    · unfold SString.shrinkLoop
      rw [if_neg hlt]
      exact ⟨by omega, fun h => h⟩

theorem SString.resize_some {N : Nat} (s : SString N) (sz : Nat) (c : Char)
    (hs : s.WF) (hsz : sz ≤ N) :
    ∃ t, SString.resize s sz c = some t ∧ t.len = sz ∧ t.WF := by
  obtain ⟨t, heq, hlen, hle, hwf⟩ :=
    SString.growLoop_some c sz (sz + 1) s hs.1 hsz (by omega)
  obtain ⟨hslen, hswf⟩ := SString.shrinkLoop_spec sz t.len t (by omega)
  refine ⟨SString.shrinkLoop sz t.len t, ?_, by omega, hswf (hwf hs)⟩
  unfold SString.resize
  rw [heq]

theorem SString.resize_stuck {N : Nat} (s : SString N) (sz : Nat) (c : Char)
    (hs : s.len ≤ N) (hsz : N < sz) :
    ¬ SString.ResizeGrowTerminates s sz c ∧ SString.resize s sz c = none := by
  constructor
  · rintro ⟨fuel, t, ht⟩
    rw [SString.growLoop_none c sz hsz fuel s hs] at ht
    exact Option.noConfusion ht
  · unfold SString.resize
    rw [SString.growLoop_none c sz hsz (sz + 1) s hs]

/-- C3: the claim that `String::resize` is total for every argument is
false: for `newLength` beyond the capacity the grow loop
`while (len_ < sz) push_back(c);` (string.hpp:216-219) never exits, because
`push_back` on a full string does not change the length.  Concretely,
resizing an empty capacity-2 string to length 3 never terminates, no matter
how many iterations the loop is granted. -/
theorem C3_resize_counterexample :
    ¬ SString.ResizeGrowTerminates sEmpty2 3 ' ' :=
  (SString.resize_stuck sEmpty2 3 ' ' (by decide) (by decide)).1

/-- C3 (amended): `String::resize(newLength, fill)` terminates for every
`newLength ≤ capacity` — growing by repeated append of the fill character or
shrinking by repeated removal from the end, reaching exactly `newLength` and
never exceeding the capacity — but for `newLength > capacity` the call does
not return: the grow loop runs forever, its guard staying true after every
iteration. -/
theorem C3_resize_amended {N : Nat} (s : SString N) (sz : Nat) (c : Char) :
    (s.WF → sz ≤ N →
      ∃ t, SString.resize s sz c = some t ∧ t.len = sz ∧ t.WF) ∧
    (s.len ≤ N → N < sz →
      ¬ SString.ResizeGrowTerminates s sz c ∧ SString.resize s sz c = none) :=
  ⟨fun hs hsz => SString.resize_some s sz c hs hsz,
   fun hs hsz => SString.resize_stuck s sz c hs hsz⟩

/-- C3 witness: resizing an empty capacity-2 string to length 1 terminates
with length 1; resizing it to length 3 never does. -/
theorem C3_resize_amended_witness :
    (sEmpty2.WF ∧ (1 : Nat) ≤ 2 ∧
      ∃ t, SString.resize sEmpty2 1 'x' = some t ∧ t.len = 1 ∧ t.WF) ∧
    (sEmpty2.len ≤ 2 ∧ 2 < 3 ∧
      ¬ SString.ResizeGrowTerminates sEmpty2 3 'x' ∧
      SString.resize sEmpty2 3 'x' = none) :=
  ⟨⟨by decide, by decide,
    (C3_resize_amended sEmpty2 1 'x').1 (by decide) (by decide)⟩,
   ⟨by decide, by decide,
    (C3_resize_amended sEmpty2 3 'x').2 (by decide) (by decide)⟩⟩

/-- C8: the invariant of the bounded text buffer — `len ≤ N` with the
terminator at index `len` (`WF`) — is established by every constructor and
preserved by every public mutating operation: `clear`, `push_back`,
`pop_back`, terminating `resize`, append via `+=`, and assignment. -/
theorem C8_terminator_invariant :
    (∀ (N : Nat) (junk : Nat → Char), (SString.emptyWith N junk).WF) ∧
    (∀ (N : Nat) (junk : Nat → Char) (p : List Char),
      (SString.fromCStr N junk p).WF) ∧
    (∀ (N : Nat) (junk : Nat → Char) (xs : List Char),
      (SString.fromRange N junk xs).WF) ∧
    (∀ (M N : Nat) (junk : Nat → Char) (o : SString M),
      (SString.fromOther N junk o).WF) ∧
    (∀ (N : Nat) (s : SString N), (s.clear).WF) ∧
    (∀ (N : Nat) (s : SString N) (c : Char), s.WF → (s.push_back c).WF) ∧
    (∀ (N : Nat) (s : SString N), s.WF → (s.pop_back).WF) ∧
    (∀ (N : Nat) (s : SString N) (p : List Char), s.WF → (s.appendCStr p).WF) ∧
    (∀ (N : Nat) (s : SString N) (p : List Char), (s.assignCStr p).WF) ∧
    (∀ (N : Nat) (s : SString N) (sz : Nat) (c : Char) (t : SString N),
      SString.resize s sz c = some t → s.WF → sz ≤ N → t.WF) :=
  ⟨fun N junk => SString.WF_emptyWith N junk,
   fun N junk p => SString.WF_fromCStr N junk p,
   fun N junk xs => SString.WF_fromRange N junk xs,
   fun M N junk o => SString.WF_fromOther N junk o,
   fun N s => SString.WF_clear s,
   fun N s c hs => SString.WF_push_back s c hs.1,
   fun N s hs => SString.WF_pop_back s hs.1,
   fun N s p hs => SString.WF_appendCStr s p hs.1,
   fun N s p => SString.WF_assignCStr s p,
   fun N s sz c t ht hs hsz => by
     obtain ⟨t', heq, _, hwf⟩ := SString.resize_some s sz c hs hsz
     rw [heq] at ht
     exact Option.some_injective _ ht ▸ hwf⟩

/-- C8 witness: the invariant holds on concrete instances. -/
theorem C8_terminator_invariant_witness :
    sEmpty2.WF ∧ (SString.push_back sEmpty2 'q').WF ∧ sNulA.WF ∧
    (SString.pop_back sNulA).WF :=
  ⟨C8_terminator_invariant.1 2 exJunkC,
   C8_terminator_invariant.2.2.2.2.2.1 2 sEmpty2 'q' (by decide),
   by decide,
   C8_terminator_invariant.2.2.2.2.2.2.1 2 sNulA (by decide)⟩

/-- C4: the claim that popping an empty container aborts in checked builds
for both container kinds is false for the text buffer: `String::pop_back`
(string.hpp:237-244) contains no assertion, so on an empty string it is a
silent no-op even with checks enabled. -/
theorem C4_empty_pop_counterexample :
    sEmpty2.len = 0 ∧ (SString.popBackChecked sEmpty2).isSome = true := by
  refine ⟨by decide, by decide⟩

/-- C4 (amended): on an empty container, `front()` and `back()` abort in
checked builds for both the text buffer and the sequence container, and
`pop_back` aborts for the sequence container; but `String::pop_back` carries
no assertion and never aborts — on an empty string it is a silent no-op. -/
theorem C4_empty_access_amended :
    (∀ (N : Nat) (s : SString N), s.len = 0 →
      SString.backChecked s = none ∧ SString.frontChecked s = none ∧
      SString.popBackChecked s = some (SString.pop_back s)) ∧
    (∀ (T : Type) (N : Nat) (v : SVector T N), v.len = 0 →
      SVector.popBackChecked v = none ∧ SVector.backChecked v = none ∧
      SVector.frontChecked v = none) := by
  constructor
  · intro N s h
    refine ⟨?_, ?_, rfl⟩ <;>
      simp [SString.backChecked, SString.frontChecked, h]
  · intro T N v h
    refine ⟨?_, ?_, ?_⟩ <;>
      simp [SVector.popBackChecked, SVector.backChecked, SVector.frontChecked, h]

/-- C4 witness: the amended behaviour on concrete empty containers. -/
theorem C4_empty_access_amended_witness :
    (sEmpty2.len = 0 ∧ SString.backChecked sEmpty2 = none) ∧
    (vEmpty2.len = 0 ∧ SVector.popBackChecked vEmpty2 = none) :=
  ⟨⟨by decide, (C4_empty_access_amended.1 2 sEmpty2 (by decide)).1⟩,
   ⟨by decide, (C4_empty_access_amended.2 Nat 2 vEmpty2 (by decide)).1⟩⟩

theorem SVector.foldl_push_len {T : Type} {N : Nat} :
    ∀ (xs : List T) (v : SVector T N), v.len ≤ N →
      (xs.foldl SVector.push_back v).len = min (v.len + xs.length) N
  | [], v, h => by
    simp [List.foldl]
    omega
  | x :: rest, v, h => by
    rw [List.foldl_cons]
    by_cases hlt : v.len < N
    · have hpush : SVector.push_back v x
          = { len := v.len + 1, buf := upd v.buf v.len x } := by
        simp [SVector.push_back, hlt]
      rw [hpush, SVector.foldl_push_len rest _ (by simp; omega)]
      simp
      omega
    · have hpush : SVector.push_back v x = v := by simp [SVector.push_back, hlt]
      rw [hpush, SVector.foldl_push_len rest v h]
      simp
      omega

theorem SVector.foldl_push_content {T : Type} {N : Nat} :
    ∀ (xs : List T) (v : SVector T N), v.len ≤ N →
      (xs.foldl SVector.push_back v).content = v.content ++ xs.take (N - v.len)
  | [], v, h => by simp [List.foldl]
  | x :: rest, v, h => by
    rw [List.foldl_cons]
    by_cases hlt : v.len < N
    · have hpush : SVector.push_back v x
          = { len := v.len + 1, buf := upd v.buf v.len x } := by
        simp [SVector.push_back, hlt]
      rw [hpush, SVector.foldl_push_content rest _ (by simp; omega)]
      rw [show ({ len := v.len + 1, buf := upd v.buf v.len x } : SVector T N).content
          = v.content ++ [x] from SVector.content_write v x]
      have hn : N - v.len = (N - (v.len + 1)) + 1 := by omega
      simp [hn, List.append_assoc]
    · have hpush : SVector.push_back v x = v := by simp [SVector.push_back, hlt]
      rw [hpush, SVector.foldl_push_content rest v h]
      have hn : N - v.len = 0 := by omega
      simp [hn]

theorem SVector.fromListCheckedLoop_none {T : Type} {N : Nat} :
    ∀ (xs : List T) (v : SVector T N), v.len ≤ N → N < v.len + xs.length →
      SVector.fromListCheckedLoop v xs = none
  | [], v, h, hlong => by
    simp at hlong
    omega
  | x :: rest, v, h, hlong => by
    unfold SVector.fromListCheckedLoop SVector.pushBackChecked
    by_cases hlt : v.len < N
    · rw [if_pos hlt]
      exact SVector.fromListCheckedLoop_none rest _ (by simp; omega)
        (by simp at hlong ⊢; omega)
    · rw [if_neg hlt]

/-- C6: in a checked build, constructing a `Vector<T, 2>` from the literal
list `{1, 2, 3}` is not fault-free: the third `push_back` hits
`assert(false)` (vector.hpp:143) and aborts, contradicting the claim that
the appends "simply stop silently ... without a fault". -/
theorem C6_initializer_list_counterexample :
    (SVector.fromListChecked Nat 2 exJunkN [1, 2, 3]).isNone = true := by
  decide

/-- C6 (amended): constructing a bounded sequence container from a literal
list of more than `N` values appends each value in order by the push-back
policy: in builds without contract checks the appends past capacity are
silent no-ops, yielding exactly the first `N` values; in checked builds the
first append past capacity is a contract violation that aborts. -/
theorem C6_initializer_list_amended (T : Type) (N : Nat) (junk : Nat → T)
    (xs : List T) (hlong : N < xs.length) :
    (SVector.fromList T N junk xs).len = N ∧
    (SVector.fromList T N junk xs).content = xs.take N ∧
    SVector.fromListChecked T N junk xs = none := by
  refine ⟨?_, ?_, ?_⟩
  · unfold SVector.fromList
    rw [SVector.foldl_push_len xs _ (Nat.zero_le N)]
    simp [SVector.initJunk]
    omega
  · unfold SVector.fromList
    rw [SVector.foldl_push_content xs _ (Nat.zero_le N)]
    simp [SVector.initJunk, SVector.content]
  · unfold SVector.fromListChecked
    exact SVector.fromListCheckedLoop_none xs _ (Nat.zero_le N)
      (by simp [SVector.initJunk]; omega)

/-- C6 witness: the amended claim at `N = 2`, `xs = [1, 2, 3]`. -/
theorem C6_initializer_list_amended_witness :
    2 < ([1, 2, 3] : List Nat).length ∧
    ((SVector.fromList Nat 2 exJunkN [1, 2, 3]).len = 2 ∧
     (SVector.fromList Nat 2 exJunkN [1, 2, 3]).content = [1, 2, 3].take 2 ∧
     SVector.fromListChecked Nat 2 exJunkN [1, 2, 3] = none) :=
  ⟨by decide, C6_initializer_list_amended Nat 2 exJunkN [1, 2, 3] (by decide)⟩

theorem natAbs_tmod (a b : Int) : (a.tmod b).natAbs = a.natAbs % b.natAbs := by
  cases a <;> cases b <;>
      simp only [Int.tmod, Int.natAbs_neg, Int.natAbs_ofNat, Int.natAbs_negSucc] <;>
    rfl

theorem natAbs_signedStep (r x : Int) :
    (signedStep r x).natAbs = x.natAbs / r.natAbs := by
  unfold signedStep
  by_cases hx : x < 0
  · rw [if_pos hx, Int.natAbs_neg, Int.natAbs_tdiv, Int.natAbs_neg]
    rfl
  · rw [if_neg hx, Int.natAbs_tdiv]
    rfl

theorem signedStep_eq_zero_iff (r x : Int) :
    signedStep r x = 0 ↔ x.natAbs / r.natAbs = 0 := by
  rw [← natAbs_signedStep r x]
  exact ⟨fun h => by rw [h]; rfl, Int.natAbs_eq_zero.mp⟩

theorem signedLoop_eq_unsignedLoop (r : Int) :
    ∀ (fuel : Nat) (x : Int) (acc : List Char),
      signedLoop r fuel x acc = unsignedLoop r.natAbs fuel x.natAbs acc
  | 0, _, _ => rfl
  | fuel + 1, x, acc => by
    unfold signedLoop unsignedLoop
    rw [natAbs_tmod]
    by_cases h : signedStep r x = 0
    · rw [if_pos h, if_pos ((signedStep_eq_zero_iff r x).mp h)]
    · rw [if_neg h, if_neg (fun hz => h ((signedStep_eq_zero_iff r x).mpr hz)),
        signedLoop_eq_unsignedLoop r fuel (signedStep r x) _, natAbs_signedStep]

theorem unsignedLoop_spec (r : Nat) (hr : 2 ≤ r) :
    ∀ (fuel n : Nat) (acc : List Char), n < fuel →
      unsignedLoop r fuel n acc
        = (if n = 0 then ['0'] else (Nat.digits r n).reverse.map alphaChar) ++ acc
  | 0, n, _, hf => absurd hf (Nat.not_lt_zero n)
  | fuel + 1, n, acc, hf => by
    unfold unsignedLoop
    by_cases hn : n = 0
    · subst hn
      rw [if_pos (Nat.zero_div r), if_pos rfl]
      rfl
    · have hd : Nat.digits r n = n % r :: Nat.digits r (n / r) :=
        Nat.digits_def' (by omega) (Nat.pos_of_ne_zero hn)
      by_cases hq : n / r = 0
      · rw [if_pos hq, if_neg hn, hd, hq]
        simp
      · have hlt : n / r < n := Nat.div_lt_self (Nat.pos_of_ne_zero hn) (by omega)
        rw [if_neg hq,
          unsignedLoop_spec r hr fuel (n / r) _ (by omega),
          if_neg hq, if_neg hn, hd]
        simp

theorem convertUnsigned_spec (r : Nat) (hr : 2 ≤ r) (n : Nat) :
    convertUnsigned r n
      = if n = 0 then ['0'] else (Nat.digits r n).reverse.map alphaChar := by
  unfold convertUnsigned
  rw [unsignedLoop_spec r hr (n + 1) n [] (by omega), List.append_nil]

theorem convertSigned_eq_unsigned (r x : Int) :
    convertSigned r x
      = (if x < 0 then ['-'] else []) ++ convertUnsigned r.natAbs x.natAbs := by
  unfold convertSigned convertUnsigned
  rw [signedLoop_eq_unsignedLoop r (x.natAbs + 1) x []]
  by_cases hx : x < 0
  · rw [if_pos hx, if_pos hx]
    rfl
  · rw [if_neg hx, if_neg hx, List.nil_append]

theorem convertSigned_canonical (x : Int) :
    convertSigned 10 x
      = (if x < 0 then ['-'] else []) ++ canonicalDecimal x.natAbs := by
  rw [convertSigned_eq_unsigned 10 x,
    show (10 : Int).natAbs = 10 from rfl,
    convertUnsigned_spec 10 (by omega) x.natAbs]
  rfl

theorem decodeDecimal_append_singleton (X : List Char) (c : Char) :
    decodeDecimal (X ++ [c]) = 10 * decodeDecimal X + (c.toNat - 48) := by
  simp [decodeDecimal, List.foldl_append]

theorem decodeDecimal_ofDigits :
    ∀ (L : List Nat), (∀ d ∈ L, d < 10) →
      decodeDecimal (L.reverse.map alphaChar) = Nat.ofDigits 10 L
  | [], _ => rfl
  | d :: L, h => by
    have hd : d < 10 := h d (List.mem_cons_self d L)
    have hL : ∀ e ∈ L, e < 10 := fun e he => h e (List.mem_cons_of_mem d he)
    have hval : (alphaChar d).toNat - 48 = d := by interval_cases d <;> decide
    rw [List.reverse_cons, List.map_append, List.map_singleton,
      decodeDecimal_append_singleton, decodeDecimal_ofDigits L hL, hval,
      Nat.ofDigits_cons]
    omega

theorem decodeDecimal_canonical (n : Nat) :
    decodeDecimal (canonicalDecimal n) = n := by
  unfold canonicalDecimal
  by_cases hn : n = 0
  · rw [if_pos hn, hn]
    rfl
  · rw [if_neg hn,
      decodeDecimal_ofDigits (Nat.digits 10 n)
        (fun d hd => Nat.digits_lt_base (by omega) hd),
      Nat.ofDigits_digits]

theorem canonicalDecimal_no_leading_zero (n : Nat) (hn : n ≠ 0) :
    (canonicalDecimal n).head? ≠ some '0' := by
  unfold canonicalDecimal
  rw [if_neg hn]
  have hne : Nat.digits 10 n ≠ [] := Nat.digits_ne_nil_iff_ne_zero.mpr hn
  have hlast : (Nat.digits 10 n).getLast hne ≠ 0 := Nat.getLast_digit_ne_zero 10 hn
  have hmem : (Nat.digits 10 n).getLast hne ∈ Nat.digits 10 n := List.getLast_mem hne
  have hbound : (Nat.digits 10 n).getLast hne < 10 :=
    Nat.digits_lt_base (by omega) hmem
  have hch : ∀ d : Nat, d < 10 → d ≠ 0 → alphaChar d ≠ '0' := by decide
  rw [List.head?_map, ← List.getLast?_eq_head?_reverse,
    List.getLast?_eq_getLast _ hne]
  intro hcontra
  exact hch _ hbound hlast (Option.some_injective _ hcontra)

theorem signedLoop_ne_nil (r : Int) :
    ∀ (fuel : Nat) (x : Int) (acc : List Char), acc ≠ [] →
      signedLoop r fuel x acc ≠ []
  | 0, _, _, h => h
  | fuel + 1, x, acc, h => by
    unfold signedLoop
    by_cases hz : signedStep r x = 0
    · rw [if_pos hz]
      exact List.cons_ne_nil _ _
    · rw [if_neg hz]
      exact signedLoop_ne_nil r fuel _ _ (List.cons_ne_nil _ _)

theorem convertSigned_ne_nil (r x : Int) : convertSigned r x ≠ [] := by
  unfold convertSigned signedLoop
  by_cases hz : signedStep r x = 0
  · rw [if_pos hz]
    by_cases hx : x < 0 <;> simp [hx]
  · rw [if_neg hz]
    have h := signedLoop_ne_nil r x.natAbs (signedStep r x)
      (alphaChar (x.tmod r).natAbs :: []) (List.cons_ne_nil _ _)
    by_cases hx : x < 0 <;> simp [hx, h]

theorem unsignedLoop_ne_nil (r : Nat) :
    ∀ (fuel n : Nat) (acc : List Char), acc ≠ [] → unsignedLoop r fuel n acc ≠ []
  | 0, _, _, h => h
  | fuel + 1, n, acc, h => by
    unfold unsignedLoop
    by_cases hz : n / r = 0
    · rw [if_pos hz]
      exact List.cons_ne_nil _ _
    · rw [if_neg hz]
      exact unsignedLoop_ne_nil r fuel _ _ (List.cons_ne_nil _ _)

theorem convertUnsigned_ne_nil (r n : Nat) : convertUnsigned r n ≠ [] := by
  unfold convertUnsigned unsignedLoop
  by_cases hz : n / r = 0
  · rw [if_pos hz]
    exact List.cons_ne_nil _ _
  · rw [if_neg hz]
    exact unsignedLoop_ne_nil r n _ _ (List.cons_ne_nil _ _)

/-- C2: in radix 10 the converter emits, for every signed integer value,
exactly the canonical shortest decimal digit sequence of its magnitude,
most significant digit first, prefixed with `'-'` when negative.  The
canonical sequence decodes back to the magnitude, carries no leading zero
(so it is the shortest correct spelling), and the most negative values of
the 8-bit and 32-bit signed types — where naive negation would overflow —
format as `"-128"` and `"-2147483648"`. -/
theorem C2_intToString_decimal :
    (∀ x : Int, convertSigned 10 x
        = (if x < 0 then ['-'] else []) ++ canonicalDecimal x.natAbs) ∧
    (∀ n : Nat, convertUnsigned 10 n = canonicalDecimal n) ∧
    (∀ n : Nat, decodeDecimal (canonicalDecimal n) = n) ∧
    (∀ n : Nat, n ≠ 0 → (canonicalDecimal n).head? ≠ some '0') ∧
    convertSigned 10 (-128) = ['-', '1', '2', '8'] ∧
    convertSigned 10 (-2147483648)
      = ['-', '2', '1', '4', '7', '4', '8', '3', '6', '4', '8'] :=
  ⟨convertSigned_canonical,
   fun n => by rw [convertUnsigned_spec 10 (by omega) n]; rfl,
   decodeDecimal_canonical,
   canonicalDecimal_no_leading_zero,
   by decide,
   by decide⟩

/-- C2 witness: the no-leading-zero clause at a concrete nonzero value. -/
theorem C2_intToString_decimal_witness :
    (9643 : Nat) ≠ 0 ∧ (canonicalDecimal 9643).head? ≠ some '0' :=
  ⟨by decide, C2_intToString_decimal.2.2.2.1 9643 (by decide)⟩

/-- C10: converting the integer value zero yields the single-character
string `"0"` in every radix permitted by the source (`Radix >= 1`), for the
signed and the unsigned loop alike; and since the division loop is a
do-while, the converter's output is never empty. -/
theorem C10_zero_formats_as_zero :
    (∀ radix : Int, 1 ≤ radix → convertSigned radix 0 = ['0']) ∧
    (∀ radix : Nat, 1 ≤ radix → convertUnsigned radix 0 = ['0']) ∧
    (∀ radix x : Int, 2 ≤ radix → convertSigned radix x ≠ []) ∧
    (∀ radix x : Nat, 2 ≤ radix → convertUnsigned radix x ≠ []) := by
  refine ⟨?_, ?_, fun radix x _ => convertSigned_ne_nil radix x,
    fun radix x _ => convertUnsigned_ne_nil radix x⟩
  · intro radix _
    unfold convertSigned signedLoop
    rw [show signedStep radix 0 = 0 by simp [signedStep, Int.zero_tdiv]]
    simp [Int.zero_tmod]
    rfl
  · intro radix _
    unfold convertUnsigned unsignedLoop
    rw [if_pos (Nat.zero_div radix), Nat.zero_mod]
    rfl

/-- C10 witness: radix 10 concretely. -/
theorem C10_zero_formats_as_zero_witness :
    ((1 : Int) ≤ 10 ∧ convertSigned 10 0 = ['0']) ∧
    ((1 : Nat) ≤ 10 ∧ convertUnsigned 10 0 = ['0']) ∧
    ((2 : Int) ≤ 10 ∧ convertSigned 10 7 ≠ []) ∧
    ((2 : Nat) ≤ 10 ∧ convertUnsigned 10 7 ≠ []) :=
  ⟨⟨by decide, C10_zero_formats_as_zero.1 10 (by decide)⟩,
   ⟨by decide, C10_zero_formats_as_zero.2.1 10 (by decide)⟩,
   ⟨by decide, C10_zero_formats_as_zero.2.2.1 10 7 (by decide)⟩,
   ⟨by decide, C10_zero_formats_as_zero.2.2.2 10 7 (by decide)⟩⟩

/-- C7 witness: concatenating NUL-free `"a"` (capacity 1) with itself. -/
theorem C7_concat_witness :
    sA1.WF ∧ nullChar ∉ sA1.content ∧
    (SString.concat exJunkC sA1 sA1).content = sA1.content ++ sA1.content :=
  ⟨by decide, by decide,
   (C7_concat_amended exJunkC sA1 sA1 (by decide) (by decide)
      (by decide) (by decide)).2.1⟩

/-- C1 witness: concrete instances of the truncation law. -/
theorem C1_range_truncation_law_witness :
    ((0 : Nat) < 2 ∧ 2 < ([' ', 'b', 'c'] : List Char).length ∧
      (SString.fromRange 2 exJunkC [' ', 'b', 'c']).len = 2) ∧
    ((0 : Nat) < 3 ∧ ([5, 6] : List Nat).length ≤ 3 ∧
      (SVector.fromRange Nat 3 exJunkN [5, 6]).content = [5, 6]) :=
  ⟨⟨by decide, by decide,
    (C1_range_truncation_law.1 2 exJunkC [' ', 'b', 'c'] (by decide)).2.2.1 (by decide)⟩,
   ⟨by decide, by decide,
    (C1_range_truncation_law.2 Nat 3 exJunkN [5, 6] (by decide)).2.2.2 (by decide)⟩⟩

end Senoval
